import Mathlib

/-!
Verification of the budgeting app (`src/app.py`).

Dates are embedded as (year, month, day) triples together with their
proleptic-Gregorian ordinal (days since 0001-01-00, so 0001-01-01 has
ordinal 1), exactly as CPython's `datetime.date.toordinal` computes it.
Week arithmetic (`week_start`, `week_end`, `weeks_in_month`) is carried
out on ordinals; `d.weekday()` (Monday = 0) is `(toOrdinal d + 6) % 7`.
Money amounts are embedded as rationals.
-/

namespace Budgeting

open List

/-- A calendar date, as CPython's `datetime.date`: a (year, month, day) triple. -/
structure Date where
  year : ℕ
  month : ℕ
  day : ℕ
deriving DecidableEq

/-- Gregorian leap-year test, as `calendar.isleap`. -/
def isLeap (y : ℕ) : Bool :=
  (y % 4 == 0 && y % 100 != 0) || y % 400 == 0

/-- Number of days of month `m` of year `y`; `calendar.monthrange(y, m)[1]`.
Out-of-range months (which `calendar.monthrange` rejects) map to 0. -/
def daysInMonth (y m : ℕ) : ℕ :=
  match m with
  | 1 => 31
  | 2 => if isLeap y then 29 else 28
  | 3 => 31
  | 4 => 30
  | 5 => 31
  | 6 => 30
  | 7 => 31
  | 8 => 31
  | 9 => 30
  | 10 => 31
  | 11 => 30
  | 12 => 31
  | _ => 0

/-- Days in year `y` strictly before month `m` (CPython `_days_before_month`). -/
def daysBeforeMonth (y m : ℕ) : ℕ :=
  (match m with
   | 1 => 0 | 2 => 31 | 3 => 59 | 4 => 90 | 5 => 120 | 6 => 151
   | 7 => 181 | 8 => 212 | 9 => 243 | 10 => 273 | 11 => 304 | 12 => 334
   | _ => 0)
  + (if 2 < m ∧ isLeap y then 1 else 0)

/-- `datetime.date.toordinal()`: day number in the proleptic Gregorian
calendar, with 0001-01-01 ↦ 1. -/
def toOrdinal (d : Date) : ℕ :=
  365 * (d.year - 1)
    + ((d.year - 1) / 4 - (d.year - 1) / 100 + (d.year - 1) / 400)
    + daysBeforeMonth d.year d.month
    + d.day

/-- `d.weekday()` as a function of the ordinal: Monday = 0 … Sunday = 6.
Ordinal 1 (0001-01-01) is a Monday. -/
def weekdayOfOrdinal (n : ℕ) : ℕ := (n + 6) % 7

/-- A date is valid when it denotes a real calendar day (what `datetime.date`
accepts, ignoring the year-9999 cap, which no claim touches). -/
def Date.Valid (d : Date) : Prop :=
  1 ≤ d.year ∧ 1 ≤ d.month ∧ d.month ≤ 12 ∧ 1 ≤ d.day ∧ d.day ≤ daysInMonth d.year d.month

instance (d : Date) : Decidable d.Valid := by
  unfold Date.Valid; infer_instance

/-- `get_month_bounds(d)`: first and last calendar day of `d`'s month. -/
def get_month_bounds (d : Date) : Date × Date :=
  (⟨d.year, d.month, 1⟩, ⟨d.year, d.month, daysInMonth d.year d.month⟩)

/-- `week_start(d)`: the Monday of the week containing `d`
(`d - Timedelta(days=d.weekday())`), as an ordinal. -/
def week_start (d : Date) : ℕ :=
  toOrdinal d - weekdayOfOrdinal (toOrdinal d)

/-- `week_end(d) = week_start(d) + 6 days`, as an ordinal. -/
def week_end (d : Date) : ℕ :=
  week_start d + 6

/-- The `while cur <= we` loop body of `weeks_in_month`: starting at `cur`,
emit `(cur, cur+6)` windows stepping by 7 days while `cur ≤ we`. -/
def weeksAux (cur we : ℕ) : List (ℕ × ℕ) :=
  if cur ≤ we then (cur, cur + 6) :: weeksAux (cur + 7) we else []
termination_by we + 1 - cur

/-- `weeks_in_month(d)`: all Monday–Sunday windows intersecting `d`'s month,
as (start ordinal, end ordinal) pairs. -/
def weeks_in_month (d : Date) : List (ℕ × ℕ) :=
  let ms := (get_month_bounds d).1
  let me := (get_month_bounds d).2
  weeksAux (week_start ms) (week_end me)

/-- The C1 specification of `weeks_in_month d`: a nonempty, chronologically
ordered, contiguous, non-overlapping sequence of Monday-to-Sunday windows
stepped by 7 days, whose first start is on or before the first of the month,
whose last end is on or after the last of the month, with 4 to 6 windows. -/
def WeeksInMonthSpec (d : Date) : Prop :=
  weeks_in_month d ≠ [] ∧
  (∀ w ∈ weeks_in_month d, weekdayOfOrdinal w.1 = 0 ∧ w.2 = w.1 + 6) ∧
  List.Chain' (fun w1 w2 => w2.1 = w1.1 + 7 ∧ w2.1 = w1.2 + 1) (weeks_in_month d) ∧
  List.Pairwise (fun w1 w2 => w1.2 < w2.1) (weeks_in_month d) ∧
  (∃ w, (weeks_in_month d).head? = some w ∧ w.1 ≤ toOrdinal (get_month_bounds d).1) ∧
  (∃ w, (weeks_in_month d).getLast? = some w ∧ toOrdinal (get_month_bounds d).2 ≤ w.2) ∧
  ((weeks_in_month d).length = 4 ∨ (weeks_in_month d).length = 5 ∨
    (weeks_in_month d).length = 6)

/-- The C3 scenario property: `weeks_in_month` yields exactly the five
Monday–Sunday windows 2024-01-29…2024-02-04 through 2024-02-26…2024-03-03. -/
def Feb2024WeeksSpec (d : Date) : Prop :=
  weeks_in_month d =
    [(toOrdinal ⟨2024, 1, 29⟩, toOrdinal ⟨2024, 2, 4⟩),
     (toOrdinal ⟨2024, 2, 5⟩, toOrdinal ⟨2024, 2, 11⟩),
     (toOrdinal ⟨2024, 2, 12⟩, toOrdinal ⟨2024, 2, 18⟩),
     (toOrdinal ⟨2024, 2, 19⟩, toOrdinal ⟨2024, 2, 25⟩),
     (toOrdinal ⟨2024, 2, 26⟩, toOrdinal ⟨2024, 3, 3⟩)] ∧
  (weeks_in_month d).length = 5 ∧
  (weeks_in_month d).head? = some (toOrdinal ⟨2024, 1, 29⟩, toOrdinal ⟨2024, 2, 4⟩) ∧
  (weeks_in_month d).getLast? = some (toOrdinal ⟨2024, 2, 26⟩, toOrdinal ⟨2024, 3, 3⟩) ∧
  weekdayOfOrdinal (toOrdinal ⟨2024, 1, 29⟩) = 0 ∧
  weekdayOfOrdinal (toOrdinal ⟨2024, 3, 3⟩) = 6

/-- The fixed category set (`CATEGORIES` in `src/app.py`). -/
inductive Category
  | groceries
  | coffee
  | transport
  | pilates
  | miscellaneous
  | stocks
  | savings
  | rent
deriving DecidableEq

/-- `CATEGORIES`: the fixed, ordered list of spending categories. -/
def CATEGORIES : List Category :=
  [.groceries, .coffee, .transport, .pilates, .miscellaneous, .stocks, .savings, .rent]

/-- The per-category spend amounts of one diary entry (the `<c>_spend`
columns), as rationals. -/
structure Spends where
  groceries : ℚ
  coffee : ℚ
  transport : ℚ
  pilates : ℚ
  miscellaneous : ℚ
  stocks : ℚ
  savings : ℚ
  rent : ℚ
deriving DecidableEq

/-- Look up one category's spend amount. -/
def Spends.get (s : Spends) : Category → ℚ
  | .groceries => s.groceries
  | .coffee => s.coffee
  | .transport => s.transport
  | .pilates => s.pilates
  | .miscellaneous => s.miscellaneous
  | .stocks => s.stocks
  | .savings => s.savings
  | .rent => s.rent

/-- One parsed diary entry: the `row` dict passed to `save_spend_row`,
or one row of the dataframe returned by `load_spend_df`. -/
structure SpendRow where
  date : Date
  notes : String
  spends : Spends
deriving DecidableEq

/-- One raw row of `spending_diary.csv`: each numeric cell either parses to a
rational (`some q`) or is malformed/missing (`none`). -/
structure RawRow where
  date : Date
  notes : String
  groceries : Option ℚ
  coffee : Option ℚ
  transport : Option ℚ
  pilates : Option ℚ
  miscellaneous : Option ℚ
  stocks : Option ℚ
  savings : Option ℚ
  rent : Option ℚ
deriving DecidableEq

/-- Look up one category's raw cell. -/
def RawRow.cell (r : RawRow) : Category → Option ℚ
  | .groceries => r.groceries
  | .coffee => r.coffee
  | .transport => r.transport
  | .pilates => r.pilates
  | .miscellaneous => r.miscellaneous
  | .stocks => r.stocks
  | .savings => r.savings
  | .rent => r.rent

/-- `pd.to_numeric(df[col], errors="coerce").fillna(0.0)` applied to one row:
every malformed or missing numeric cell is coerced to 0.0. -/
def parseRow (r : RawRow) : SpendRow :=
  ⟨r.date, r.notes,
   ⟨r.groceries.getD 0, r.coffee.getD 0, r.transport.getD 0, r.pilates.getD 0,
    r.miscellaneous.getD 0, r.stocks.getD 0, r.savings.getD 0, r.rent.getD 0⟩⟩

/-- `df.to_csv(...)`: a parsed row is written back as well-formed cells. -/
def serializeRow (r : SpendRow) : RawRow :=
  ⟨r.date, r.notes,
   some r.spends.groceries, some r.spends.coffee, some r.spends.transport,
   some r.spends.pilates, some r.spends.miscellaneous, some r.spends.stocks,
   some r.spends.savings, some r.spends.rent⟩

/-- Insert one row into a list sorted ascending by date ordinal. -/
def insertRow (r : SpendRow) : List SpendRow → List SpendRow
  | [] => [r]
  | x :: xs =>
    if toOrdinal r.date ≤ toOrdinal x.date then r :: x :: xs
    else x :: insertRow r xs

/-- `df.sort_values("date")`, modelled as an insertion sort on the date key. -/
def sortByDate : List SpendRow → List SpendRow
  | [] => []
  | x :: xs => insertRow x (sortByDate xs)

/-- `load_spend_df()`: parse every row of the backing file (coercing
malformed numeric cells to 0.0) and return the rows sorted by date. -/
def load_spend_df (file : List RawRow) : List SpendRow :=
  sortByDate (file.map parseRow)

/-- The overwrite step of `save_spend_row`: when a row with the same date
exists (`(df["date"] == row["date"]).any()` on a non-empty frame), keep only
the rows with a different date (`df[df["date"] != row["date"]]`). -/
def dropSameDate (d : Date) (df : List SpendRow) : List SpendRow :=
  if 0 < df.length ∧ df.any (fun r => decide (r.date = d)) then
    df.filter (fun r => !decide (r.date = d))
  else df

/-- `save_spend_row(row)`: load the store, drop any existing row with the
same date, append the new row, sort by date, and write the file back. -/
def save_spend_row (row : SpendRow) (file : List RawRow) : List RawRow :=
  (sortByDate (dropSameDate row.date (load_spend_df file) ++ [row])).map serializeRow

/-- `filter_df_by_range(df, start_d, end_d)`: rows whose date lies in the
closed range, the bounds given as day ordinals. -/
def filter_df_by_range (rows : List SpendRow) (startO endO : ℕ) : List SpendRow :=
  if rows.length = 0 then rows
  else rows.filter (fun r =>
    decide (startO ≤ toOrdinal r.date) && decide (toOrdinal r.date ≤ endO))

/-- `totals_by_category(df)`: per-category sum of spend over the given rows,
0.0 when the frame is empty. -/
def totals_by_category (rows : List SpendRow) (c : Category) : ℚ :=
  if 0 < rows.length then (rows.map (fun r => r.spends.get c)).sum else 0

/-- The weekly-budget computation:
`{c: (allocations[c] / num_weeks if num_weeks else 0.0) for c in CATEGORIES}`. -/
def weekly_budget (allocations : Category → ℚ) (num_weeks : ℕ) (c : Category) : ℚ :=
  if num_weeks ≠ 0 then allocations c / num_weeks else 0

/-- One row of the dashboard summary table. -/
structure SummaryRow where
  category : Category
  weeklyBudget : ℚ
  spentThisWeek : ℚ
  weeklyRemaining : ℚ
  monthlyBudget : ℚ
  spentThisMonth : ℚ
  monthlyRemaining : ℚ
deriving DecidableEq

/-- The dashboard summary computation of `src/app.py` (weeks in month, weekly
budget, week/month ranges, filtered totals, one row per category in
`CATEGORIES` order). -/
def summary_rows (selected_date : Date) (df : List SpendRow)
    (allocations : Category → ℚ) : List SummaryRow :=
  let num_weeks := (weeks_in_month selected_date).length
  let wkb := weekly_budget allocations num_weeks
  let ws := week_start selected_date
  let we := week_end selected_date
  let ms := (get_month_bounds selected_date).1
  let me := (get_month_bounds selected_date).2
  let week_df := filter_df_by_range df ws we
  let month_df := filter_df_by_range df (toOrdinal ms) (toOrdinal me)
  let week_totals := totals_by_category week_df
  let month_totals := totals_by_category month_df
  CATEGORIES.map (fun c =>
    ⟨c, wkb c, week_totals c, wkb c - week_totals c,
     allocations c, month_totals c, allocations c - month_totals c⟩)

/-- A sample diary entry: 2024-02-10, groceries 50. -/
def sampleRow1 : SpendRow := ⟨⟨2024, 2, 10⟩, "", ⟨50, 0, 0, 0, 0, 0, 0, 0⟩⟩

/-- A second sample diary entry: 2024-02-12, groceries 30. -/
def sampleRow2 : SpendRow := ⟨⟨2024, 2, 12⟩, "", ⟨30, 0, 0, 0, 0, 0, 0, 0⟩⟩

/-- A sample overwrite for 2024-02-10: groceries 999. -/
def sampleRow3 : SpendRow := ⟨⟨2024, 2, 10⟩, "", ⟨999, 0, 0, 0, 0, 0, 0, 0⟩⟩

/-- A sample backing file holding the two sample entries. -/
def sampleFile : List RawRow := [serializeRow sampleRow1, serializeRow sampleRow2]

/-- The C8 specification of `load_spend_df`: loading is total (no row is
dropped and no error is raised) and every loaded row restates a raw row with
the same date and notes, with every malformed or missing numeric spend cell
coerced to 0.0. -/
def LoadCoercionSpec (file : List RawRow) : Prop :=
  (load_spend_df file).length = file.length ∧
  ∀ r ∈ load_spend_df file, ∃ rr ∈ file,
    r.date = rr.date ∧ r.notes = rr.notes ∧
    ∀ c : Category, r.spends.get c = (rr.cell c).getD 0

/-- A raw row with a malformed groceries cell and missing cells elsewhere. -/
def sampleRawRow : RawRow :=
  ⟨⟨2024, 2, 13⟩, "typo", none, some 3, none, none, none, none, none, none⟩

/-- The example allocations: groceries 400, coffee 40, everything else 0. -/
def sampleAlloc : Category → ℚ
  | .groceries => 400
  | .coffee => 40
  | _ => 0

/-- The C7 specification of `filter_df_by_range`: exactly the rows whose
date ordinal lies in the closed range, as an order-preserving subsequence of
the input, the empty frame mapping to the empty frame. -/
def FilterRangeSpec (rows : List SpendRow) (startO endO : ℕ) : Prop :=
  filter_df_by_range rows startO endO =
    rows.filter (fun r => decide (startO ≤ toOrdinal r.date) &&
      decide (toOrdinal r.date ≤ endO)) ∧
  (filter_df_by_range rows startO endO).Sublist rows ∧
  (∀ r ∈ filter_df_by_range rows startO endO,
    startO ≤ toOrdinal r.date ∧ toOrdinal r.date ≤ endO) ∧
  (∀ r ∈ rows, startO ≤ toOrdinal r.date → toOrdinal r.date ≤ endO →
    r ∈ filter_df_by_range rows startO endO) ∧
  (rows = [] → filter_df_by_range rows startO endO = [])

/-- Closed form of the week loop: it emits `(we + 7 - cur) / 7` windows,
the `i`-th being `(cur + 7*i, cur + 7*i + 6)`. -/
theorem weeksAux_eq_map_range (cur we : ℕ) :
    weeksAux cur we =
      (List.range ((we + 7 - cur) / 7)).map (fun i => (cur + 7 * i, cur + 7 * i + 6)) := by
  by_cases h : cur ≤ we
  · rw [weeksAux, if_pos h]
    have hrec := weeksAux_eq_map_range (cur + 7) we
    have hn : (we + 7 - cur) / 7 = (we + 7 - (cur + 7)) / 7 + 1 := by omega
    rw [hrec, hn, List.range_succ_eq_map, List.map_cons, List.map_map]
    refine List.cons_eq_cons.mpr ⟨by norm_num, List.map_congr_left (fun i _ => ?_)⟩
    simp only [Function.comp_apply, Nat.succ_eq_add_one, Prod.mk.injEq]
    omega
  · rw [weeksAux, if_neg h]
    have hn : (we + 7 - cur) / 7 = 0 := by omega
    rw [hn]
    simp
termination_by we + 1 - cur

/-- Every real month has between 28 and 31 days. -/
theorem daysInMonth_bounds (y m : ℕ) (h1 : 1 ≤ m) (h2 : m ≤ 12) :
    28 ≤ daysInMonth y m ∧ daysInMonth y m ≤ 31 := by
  interval_cases m <;> simp only [daysInMonth] <;>
    first
      | omega
      | (cases isLeap y <;> simp)

/-- The ordinal of the last day of a month, relative to its first day. -/
theorem toOrdinal_last_day (y m L : ℕ) (hL : 1 ≤ L) :
    toOrdinal ⟨y, m, L⟩ = toOrdinal ⟨y, m, 1⟩ + (L - 1) := by
  simp only [toOrdinal]
  omega

/-- Every date with `day ≥ 1` has ordinal at least 1. -/
theorem one_le_toOrdinal (d : Date) (h : 1 ≤ d.day) : 1 ≤ toOrdinal d := by
  simp only [toOrdinal]
  omega

theorem head?_range_map {α : Type _} (f : ℕ → α) (n : ℕ) (h : 0 < n) :
    ((List.range n).map f).head? = some (f 0) := by
  obtain ⟨k, rfl⟩ : ∃ k, n = k + 1 := ⟨n - 1, by omega⟩
  rw [List.range_succ_eq_map]
  simp

theorem getLast?_range_map {α : Type _} (f : ℕ → α) (k : ℕ) :
    ((List.range (k + 1)).map f).getLast? = some (f k) := by
  rw [List.range_succ, List.map_append]
  simp

theorem chain'_range_map {α : Type _} (f : ℕ → α) (R : α → α → Prop) (n : ℕ)
    (hf : ∀ i, i + 1 < n → R (f i) (f (i + 1))) :
    List.Chain' R ((List.range n).map f) := by
  induction n with
  | zero => simp
  | succ k ih =>
    rw [List.range_succ, List.map_append]
    refine List.Chain'.append (ih fun i hi => hf i (by omega)) (by simp) ?_
    intro x hx y hy
    cases k with
    | zero => simp at hx
    | succ j =>
      rw [getLast?_range_map] at hx
      simp only [List.map_cons, List.map_nil, List.head?_cons, Option.mem_def,
        Option.some.injEq] at hx hy
      subst hx hy
      exact hf j (by omega)

/-- C5: for every valid date `d`, `week_start d` falls on a Monday and equals
`d` minus `d`'s Monday-zero weekday offset, and `week_end d` is
`week_start d + 6` days (the following Sunday). -/
theorem week_start_monday (d : Date) (h : d.Valid) :
    weekdayOfOrdinal (week_start d) = 0 ∧
    week_start d = toOrdinal d - weekdayOfOrdinal (toOrdinal d) ∧
    week_end d = week_start d + 6 := by
  have h1 : 1 ≤ toOrdinal d := one_le_toOrdinal d h.2.2.2.1
  refine ⟨?_, rfl, rfl⟩
  simp only [week_start, weekdayOfOrdinal]
  omega

/-- Witness for C5 at the concrete date 2024-02-11. -/
theorem week_start_monday_witness :
    (Date.mk 2024 2 11).Valid ∧
    (weekdayOfOrdinal (week_start ⟨2024, 2, 11⟩) = 0 ∧
     week_start ⟨2024, 2, 11⟩ =
       toOrdinal ⟨2024, 2, 11⟩ - weekdayOfOrdinal (toOrdinal ⟨2024, 2, 11⟩) ∧
     week_end ⟨2024, 2, 11⟩ = week_start ⟨2024, 2, 11⟩ + 6) :=
  ⟨by decide, week_start_monday ⟨2024, 2, 11⟩ (by decide)⟩

/-- C1: `weeks_in_month` meets its specification on every valid date. -/
theorem weeks_in_month_spec (d : Date) (h : d.Valid) : WeeksInMonthSpec d := by
  obtain ⟨hy, hm1, hm2, hd1, hd2⟩ := h
  obtain ⟨hL1, hL2⟩ := daysInMonth_bounds d.year d.month hm1 hm2
  have ha1 : 1 ≤ toOrdinal ⟨d.year, d.month, 1⟩ := one_le_toOrdinal _ le_rfl
  have hB := toOrdinal_last_day d.year d.month (daysInMonth d.year d.month) (by omega)
  unfold WeeksInMonthSpec
  simp only [get_month_bounds]
  have hwm : weeks_in_month d =
      (List.range ((week_end ⟨d.year, d.month, daysInMonth d.year d.month⟩ + 7 -
          week_start ⟨d.year, d.month, 1⟩) / 7)).map
        (fun i => (week_start ⟨d.year, d.month, 1⟩ + 7 * i,
                   week_start ⟨d.year, d.month, 1⟩ + 7 * i + 6)) :=
    weeksAux_eq_map_range _ _
  set a := toOrdinal ⟨d.year, d.month, 1⟩ with ha
  set L := daysInMonth d.year d.month with hLdef
  set ws := week_start ⟨d.year, d.month, 1⟩ with hws0
  set we := week_end ⟨d.year, d.month, L⟩ with hwe0
  have hwsv : ws = a - (a + 6) % 7 := by
    rw [hws0, week_start, weekdayOfOrdinal, ← ha]
  have hwev : we = a + (L - 1) - (a + (L - 1) + 6) % 7 + 6 := by
    rw [hwe0, week_end, week_start, weekdayOfOrdinal, hB]
  rw [hB]
  set n := (we + 7 - ws) / 7 with hn0
  have hlen : (weeks_in_month d).length = n := by rw [hwm]; simp
  refine ⟨?_, ?_, ?_, ?_, ?_, ?_, ?_⟩
  · intro h0
    rw [h0] at hlen
    simp at hlen
    omega
  · rw [hwm]
    intro w hw
    rw [List.mem_map] at hw
    obtain ⟨i, hi, rfl⟩ := hw
    dsimp only
    refine ⟨?_, rfl⟩
    rw [weekdayOfOrdinal]
    omega
  · rw [hwm]
    apply chain'_range_map
    intro i hi
    exact ⟨by omega, by omega⟩
  · rw [hwm, List.pairwise_map]
    refine (List.pairwise_lt_range n).imp ?_
    intro i j hij
    dsimp only
    omega
  · rw [hwm, head?_range_map _ _ (by omega)]
    exact ⟨_, rfl, by dsimp only; omega⟩
  · obtain ⟨k, hk⟩ : ∃ k, n = k + 1 := ⟨n - 1, by omega⟩
    rw [hwm, hk, getLast?_range_map]
    refine ⟨_, rfl, ?_⟩
    dsimp only
    omega
  · rw [hlen]
    omega

/-- Witness for C1 at the concrete date 2024-05-15. -/
theorem weeks_in_month_spec_witness :
    (Date.mk 2024 5 15).Valid ∧ WeeksInMonthSpec ⟨2024, 5, 15⟩ :=
  ⟨by decide, weeks_in_month_spec ⟨2024, 5, 15⟩ (by decide)⟩

/-- C3: every reference date in February 2024 yields exactly 5 week windows,
the first starting Monday 2024-01-29 and the last ending Sunday 2024-03-03. -/
theorem weeks_in_month_feb2024 (d : Date) (hy : d.year = 2024) (hm : d.month = 2) :
    Feb2024WeeksSpec d := by
  have hd : d = ⟨2024, 2, d.day⟩ := by
    cases d
    simp only [Date.mk.injEq]
    exact ⟨hy, hm, trivial⟩
  rw [hd]
  unfold Feb2024WeeksSpec
  have hdim : daysInMonth 2024 2 = 29 := rfl
  have e : weeks_in_month ⟨2024, 2, d.day⟩ =
      weeksAux (week_start ⟨2024, 2, 1⟩) (week_end ⟨2024, 2, 29⟩) := by
    show weeksAux (week_start ⟨2024, 2, 1⟩)
        (week_end ⟨2024, 2, daysInMonth 2024 2⟩) = _
    rw [hdim]
  rw [e, weeksAux_eq_map_range]
  decide

/-- Witness for C3 at the concrete date 2024-02-14. -/
theorem weeks_in_month_feb2024_witness :
    (Date.mk 2024 2 14).year = 2024 ∧ (Date.mk 2024 2 14).month = 2 ∧
      Feb2024WeeksSpec ⟨2024, 2, 14⟩ :=
  ⟨rfl, rfl, weeks_in_month_feb2024 ⟨2024, 2, 14⟩ rfl rfl⟩

theorem insertRow_perm (r : SpendRow) (l : List SpendRow) : insertRow r l ~ r :: l := by
  induction l with
  | nil => exact List.Perm.refl _
  | cons x xs ih =>
    rw [insertRow]
    split
    · exact List.Perm.refl _
    · exact (ih.cons x).trans (List.Perm.swap r x xs)

theorem sortByDate_perm (l : List SpendRow) : sortByDate l ~ l := by
  induction l with
  | nil => exact List.Perm.refl _
  | cons x xs ih => exact (insertRow_perm x (sortByDate xs)).trans (ih.cons x)

/-- Round trip: serializing a parsed row and parsing it back is the identity. -/
theorem parseRow_serializeRow (r : SpendRow) : parseRow (serializeRow r) = r := rfl

theorem map_parse_serialize (l : List SpendRow) :
    (l.map serializeRow).map parseRow = l := by
  induction l with
  | nil => rfl
  | cons x xs ih => simp [ih, parseRow_serializeRow x]

theorem map_serialize_date (l : List SpendRow) :
    (l.map serializeRow).map RawRow.date = l.map SpendRow.date := by
  induction l with
  | nil => rfl
  | cons x xs ih => simp [ih, serializeRow]

theorem load_spend_df_perm (file : List RawRow) :
    load_spend_df file ~ file.map parseRow :=
  sortByDate_perm _

/-- What one `save_spend_row` leaves in the store, up to permutation. -/
theorem load_save_perm (e : SpendRow) (file : List RawRow) :
    load_spend_df (save_spend_row e file) ~
      dropSameDate e.date (load_spend_df file) ++ [e] := by
  show sortByDate (((sortByDate (dropSameDate e.date (load_spend_df file) ++ [e])).map
      serializeRow).map parseRow) ~ _
  rw [map_parse_serialize]
  exact (sortByDate_perm _).trans (sortByDate_perm _)

/-- No row surviving the overwrite step carries the overwritten date. -/
theorem dropSameDate_date_ne (d : Date) (df : List SpendRow) :
    ∀ r ∈ dropSameDate d df, ¬ r.date = d := by
  intro r hr
  unfold dropSameDate at hr
  split at hr
  · rw [List.mem_filter] at hr
    simpa using hr.2
  · rename_i hcond
    intro hd
    apply hcond
    refine ⟨List.length_pos.mpr (List.ne_nil_of_mem hr), ?_⟩
    exact List.any_eq_true.mpr ⟨r, hr, decide_eq_true hd⟩

theorem dropSameDate_sublist (d : Date) (df : List SpendRow) :
    (dropSameDate d df).Sublist df := by
  unfold dropSameDate
  split
  · exact List.filter_sublist _
  · exact List.Sublist.refl _

theorem mem_dropSameDate (d : Date) (df : List SpendRow) (r : SpendRow)
    (hr : r ∈ df) (hne : ¬ r.date = d) : r ∈ dropSameDate d df := by
  unfold dropSameDate
  split
  · exact List.mem_filter.mpr ⟨hr, by simp [hne]⟩
  · exact hr

theorem load_save_filter_eq (e : SpendRow) (file : List RawRow) :
    (load_spend_df (save_spend_row e file)).filter
      (fun r => decide (r.date = e.date)) = [e] := by
  have hperm := (load_save_perm e file).filter (fun r => decide (r.date = e.date))
  rw [List.filter_append] at hperm
  have h1 : (dropSameDate e.date (load_spend_df file)).filter
      (fun r => decide (r.date = e.date)) = [] := by
    rw [List.filter_eq_nil_iff]
    intro r hr
    simpa using dropSameDate_date_ne e.date _ r hr
  have h2 : ([e] : List SpendRow).filter (fun r => decide (r.date = e.date)) = [e] := by
    simp
  rw [h1, h2, List.nil_append] at hperm
  exact List.perm_singleton.mp hperm

/-- C2: after `save_spend_row e`, loading the store and restricting to
`e.date` yields exactly the single entry `e`; in particular two upserts in a
row keep only the latest entry for that date. -/
theorem upsert_load_exact (e : SpendRow) (file : List RawRow) :
    (load_spend_df (save_spend_row e file)).filter
        (fun r => decide (r.date = e.date)) = [e] ∧
    ∀ e0 : SpendRow,
      (load_spend_df (save_spend_row e (save_spend_row e0 file))).filter
        (fun r => decide (r.date = e.date)) = [e] :=
  ⟨load_save_filter_eq e file, fun e0 => load_save_filter_eq e (save_spend_row e0 file)⟩

/-- Witness for C2: overwriting 2024-02-10 in the sample store keeps exactly
the latest entry for that date. -/
theorem upsert_load_exact_witness :
    (load_spend_df (save_spend_row sampleRow3 sampleFile)).filter
        (fun r => decide (r.date = sampleRow3.date)) = [sampleRow3] ∧
    (load_spend_df (save_spend_row sampleRow3 (save_spend_row sampleRow1 sampleFile))).filter
        (fun r => decide (r.date = sampleRow3.date)) = [sampleRow3] :=
  ⟨(upsert_load_exact sampleRow3 sampleFile).1,
   (upsert_load_exact sampleRow3 sampleFile).2 sampleRow1⟩

theorem map_parse_date (file : List RawRow) :
    (file.map parseRow).map SpendRow.date = file.map RawRow.date := by
  induction file with
  | nil => rfl
  | cons x xs ih => simp [ih, parseRow]

/-- C6: the at-most-one-row-per-date store invariant is preserved by upsert. -/
theorem save_nodup_dates (e : SpendRow) (file : List RawRow)
    (h : (file.map RawRow.date).Nodup) :
    ((save_spend_row e file).map RawRow.date).Nodup := by
  have hdates : (save_spend_row e file).map RawRow.date =
      (sortByDate (dropSameDate e.date (load_spend_df file) ++ [e])).map SpendRow.date := by
    unfold save_spend_row
    exact map_serialize_date _
  rw [hdates]
  have hperm : List.Perm ((sortByDate (dropSameDate e.date (load_spend_df file) ++ [e])).map
      SpendRow.date) ((dropSameDate e.date (load_spend_df file) ++ [e]).map SpendRow.date) :=
    (sortByDate_perm _).map _
  refine hperm.symm.nodup ?_
  rw [List.map_append, List.nodup_append]
  refine ⟨?_, by simp, ?_⟩
  · have hload : ((load_spend_df file).map SpendRow.date).Nodup := by
      have hp : List.Perm ((load_spend_df file).map SpendRow.date)
          ((file.map parseRow).map SpendRow.date) := (load_spend_df_perm file).map _
      refine hp.symm.nodup ?_
      rw [map_parse_date]
      exact h
    exact List.Nodup.sublist ((dropSameDate_sublist _ _).map _) hload
  · intro a ha hmem
    rw [List.mem_map] at ha
    obtain ⟨r, hr, hrd⟩ := ha
    rw [List.map_singleton, List.mem_singleton] at hmem
    subst hmem
    exact dropSameDate_date_ne e.date _ r hr hrd

/-- Witness for C6 on the sample store. -/
theorem save_nodup_dates_witness :
    (sampleFile.map RawRow.date).Nodup ∧
    ((save_spend_row sampleRow3 sampleFile).map RawRow.date).Nodup :=
  ⟨by decide, save_nodup_dates sampleRow3 sampleFile (by decide)⟩

/-- C10: upsert is framed to its own date — every loaded entry with a
different date is still present after `save_spend_row`, with its date, notes
and every per-category spend unchanged. -/
theorem save_frames_other_dates (e : SpendRow) (file : List RawRow) (r : SpendRow)
    (hr : r ∈ load_spend_df file) (hne : r.date ≠ e.date) :
    r ∈ load_spend_df (save_spend_row e file) := by
  apply (load_save_perm e file).mem_iff.mpr
  rw [List.mem_append]
  left
  exact mem_dropSameDate e.date _ r hr hne

/-- Witness for C10: the 2024-02-12 entry survives an upsert for 2024-02-10. -/
theorem save_frames_other_dates_witness :
    sampleRow2 ∈ load_spend_df sampleFile ∧
    sampleRow2.date ≠ sampleRow3.date ∧
    sampleRow2 ∈ load_spend_df (save_spend_row sampleRow3 sampleFile) :=
  ⟨by decide, by decide,
   save_frames_other_dates sampleRow3 sampleFile sampleRow2 (by decide) (by decide)⟩

/-- C8: `load_spend_df` meets its coercion specification on every backing
file, malformed cells included. -/
theorem load_spend_df_coerces (file : List RawRow) : LoadCoercionSpec file := by
  constructor
  · rw [(load_spend_df_perm file).length_eq, List.length_map]
  · intro r hr
    have hmem : r ∈ file.map parseRow := (load_spend_df_perm file).mem_iff.mp hr
    rw [List.mem_map] at hmem
    obtain ⟨rr, hrr, hparse⟩ := hmem
    refine ⟨rr, hrr, ?_, ?_, ?_⟩
    · rw [← hparse]; rfl
    · rw [← hparse]; rfl
    · intro c
      rw [← hparse]
      cases c <;> rfl

/-- Witness for C8 on a one-row file with malformed cells. -/
theorem load_spend_df_coerces_witness : LoadCoercionSpec [sampleRawRow] :=
  load_spend_df_coerces [sampleRawRow]

/-- C4: the weekly budget is `allocations[c] / num_weeks` per category when
the week count is nonzero, and 0.0 for every category when it is zero (the
guard avoids any division-by-zero error). -/
theorem weekly_budget_spec (allocations : Category → ℚ) (num_weeks : ℕ) :
    (num_weeks ≠ 0 →
      ∀ c, weekly_budget allocations num_weeks c = allocations c / num_weeks) ∧
    (num_weeks = 0 → ∀ c, weekly_budget allocations num_weeks c = 0) := by
  constructor
  · intro h c
    simp [weekly_budget, h]
  · intro h c
    simp [weekly_budget, h]

/-- Witness for C4: with 5 weeks the example weekly budgets are 80 and 8,
and with 0 weeks every weekly budget is 0. -/
theorem weekly_budget_spec_witness :
    ((5 : ℕ) ≠ 0 ∧
      weekly_budget sampleAlloc 5 Category.groceries = 80 ∧
      weekly_budget sampleAlloc 5 Category.coffee = 8) ∧
    weekly_budget sampleAlloc 0 Category.groceries = 0 := by
  refine ⟨⟨by decide, ?_, ?_⟩, ?_⟩
  · rw [(weekly_budget_spec sampleAlloc 5).1 (by decide) Category.groceries]
    norm_num [sampleAlloc]
  · rw [(weekly_budget_spec sampleAlloc 5).1 (by decide) Category.coffee]
    norm_num [sampleAlloc]
  · exact (weekly_budget_spec sampleAlloc 0).2 rfl Category.groceries

/-- C7: `filter_df_by_range` meets its specification for every input frame
and every pair of range bounds. -/
theorem filter_df_by_range_spec (rows : List SpendRow) (startO endO : ℕ) :
    FilterRangeSpec rows startO endO := by
  have key : filter_df_by_range rows startO endO =
      rows.filter (fun r => decide (startO ≤ toOrdinal r.date) &&
        decide (toOrdinal r.date ≤ endO)) := by
    unfold filter_df_by_range
    split
    · rename_i h0
      rw [List.length_eq_zero] at h0
      subst h0
      rfl
    · rfl
  refine ⟨key, ?_, ?_, ?_, ?_⟩
  · rw [key]
    exact List.filter_sublist _
  · intro r hr
    rw [key, List.mem_filter] at hr
    have h2 := hr.2
    simp only [Bool.and_eq_true, decide_eq_true_eq] at h2
    exact h2
  · intro r hr h1 h2
    rw [key, List.mem_filter]
    exact ⟨hr, by simp [h1, h2]⟩
  · intro h0
    subst h0
    rfl

/-- Witness for C7 on the sample rows and the week 2024-02-05…2024-02-11. -/
theorem filter_df_by_range_spec_witness :
    FilterRangeSpec [sampleRow1, sampleRow2]
      (toOrdinal ⟨2024, 2, 5⟩) (toOrdinal ⟨2024, 2, 11⟩) :=
  filter_df_by_range_spec [sampleRow1, sampleRow2] _ _

/-- C9: the summary computation is deterministic — a pure function of the
reference date, the diary rows and the month's allocations, with no other
inputs. -/
theorem summary_rows_deterministic (d1 d2 : Date) (df1 df2 : List SpendRow)
    (a1 a2 : Category → ℚ) (hd : d1 = d2) (hdf : df1 = df2)
    (ha : ∀ c, a1 c = a2 c) :
    summary_rows d1 df1 a1 = summary_rows d2 df2 a2 := by
  subst hd
  subst hdf
  rw [funext ha]

/-- Witness for C9: two runs on identical concrete inputs agree. -/
theorem summary_rows_deterministic_witness :
    Date.mk 2024 2 11 = Date.mk 2024 2 11 ∧
    summary_rows ⟨2024, 2, 11⟩ [sampleRow1, sampleRow2] sampleAlloc =
      summary_rows ⟨2024, 2, 11⟩ [sampleRow1, sampleRow2] sampleAlloc :=
  ⟨rfl, summary_rows_deterministic ⟨2024, 2, 11⟩ ⟨2024, 2, 11⟩
    [sampleRow1, sampleRow2] [sampleRow1, sampleRow2] sampleAlloc sampleAlloc
    rfl rfl (fun _ => rfl)⟩

end Budgeting
